import Mathlib

/-!
Verification development for the Zipkin-to-Jaeger adapter in
`packages/jaeger-ui/src/api/jaeger.js`.

Strings from the JavaScript source are embedded as `List Char`; JavaScript
`undefined`/`null` values are embedded as `Option`; JavaScript numbers that
are only ever integral in the functions under study are embedded as `Nat`,
`Int` or `Rat` as appropriate.
-/

/-- Character class of the JavaScript regex escape `\s` (whitespace). -/
def jsWhitespace (c : Char) : Bool :=
  c = ' ' || c = '\t' || c = '\n' || c = '\r' || c = '\x0b' || c = '\x0c' ||
  c.val = 0xa0 || c.val = 0x1680 || (0x2000 ≤ c.val && c.val ≤ 0x200a) ||
  c.val = 0x2028 || c.val = 0x2029 || c.val = 0x202f || c.val = 0x205f ||
  c.val = 0x3000 || c.val = 0xfeff

/-- Index of the last `=` character of a list, if any. -/
def lastEqIdx : List Char → Option Nat
  | [] => none
  | c :: rest =>
    match lastEqIdx rest with
    | some i => some (i + 1)
    | none => if c = '=' then some 0 else none

/-- Matching of `(\S+)=` at the start of `cs`, with the greedy, backtracking
semantics of the JavaScript engine: the maximal non-whitespace run is taken
and the capture stops at the last `=` inside it (at index at least 1, since
`\S+` must consume at least one character).  Returns the matched text
(key followed by `=`) and the captured key. -/
def tryRun (cs : List Char) : Option (List Char × List Char) :=
  let run := cs.takeWhile (fun c => !(jsWhitespace c))
  match lastEqIdx run with
  | some k => if 1 ≤ k then some (run.take (k + 1), run.take k) else none
  | none => none

/-- Matching of the pattern `\s?((\S+)=)` (regex of `transformLogs`) anchored
at the start of `cs`.  Returns `match[0]` and the key capture `match[3]`. -/
def matchHere (cs : List Char) : Option (List Char × List Char) :=
  match cs with
  | [] => none
  | c :: rest =>
    if jsWhitespace c then
      match tryRun rest with
      | some (m, k) => some (c :: m, k)
      | none => none
    else
      tryRun cs

/-- Fuelled scan mirroring the `regex.exec` loop of `transformLogs`: the
leftmost match is found by trying every start position, and scanning resumes
right after each match (the regex has the `g` flag). -/
def execLoopF : Nat → List Char → List (List Char × List Char)
  | 0, _ => []
  | _ + 1, [] => []
  | fuel + 1, c :: rest =>
    match matchHere (c :: rest) with
    | some (m, k) => (m, k) :: execLoopF fuel ((c :: rest).drop m.length)
    | none => execLoopF fuel rest

/-- All matches of `/(\s?((\S+)=))/gi` in a string, in scanning order. -/
def execAll (value : List Char) : List (List Char × List Char) :=
  execLoopF (value.length + 1) value

/-- Index of the first occurrence of `target` in a list, if any. -/
def findSub (target : List Char) : List Char → Option Nat
  | [] => if target.isPrefixOf ([] : List Char) then some 0 else none
  | c :: rest =>
    if target.isPrefixOf (c :: rest) then some 0
    else
      match findSub target rest with
      | some i => some (i + 1)
      | none => none

/-- The `$`-substitution that JavaScript `String.prototype.replace` applies
to the replacement string when the pattern is a plain string: `$$` is a
dollar sign, `$&` the matched substring, a dollar followed by a backquote
(code 96) the portion before the match, and a dollar followed by an
apostrophe (code 39) the portion after the match; any other `$` is
literal. -/
def substDollar (bef mat aft : List Char) : List Char → List Char
  | [] => []
  | [c] => [c]
  | c :: d :: rest =>
    if c = '$' then
      if d = '$' then '$' :: substDollar bef mat aft rest
      else if d = '&' then mat ++ substDollar bef mat aft rest
      else if d.toNat = 96 then bef ++ substDollar bef mat aft rest
      else if d.toNat = 39 then aft ++ substDollar bef mat aft rest
      else c :: substDollar bef mat aft (d :: rest)
    else c :: substDollar bef mat aft (d :: rest)

/-- JavaScript `s.replace(target, repl)` with a plain string pattern: the
first occurrence of `target` is replaced by `repl` after `$`-substitution;
when `target` does not occur, `s` is returned unchanged. -/
def jsReplaceFirst (target repl s : List Char) : List Char :=
  match findSub target s with
  | none => s
  | some i =>
    let bef := s.take i
    let aft := s.drop (i + target.length)
    bef ++ substDollar bef target aft repl ++ aft

/-- Fuelled JavaScript `String.prototype.split` with a non-empty string
separator `s0 :: stl` (leftmost, non-overlapping occurrences). -/
def splitSubF : Nat → Char → List Char → List Char → List (List Char)
  | 0, _, _, l => [l]
  | _ + 1, _, _, [] => [[]]
  | fuel + 1, s0, stl, c :: rest =>
    if (s0 :: stl).isPrefixOf (c :: rest) then
      [] :: splitSubF fuel s0 stl ((c :: rest).drop (stl.length + 1))
    else
      match splitSubF fuel s0 stl rest with
      | [] => [[c]]
      | seg :: segs => (c :: seg) :: segs

/-- JavaScript `s.split(sep)` for a string separator. -/
def splitSub (sep : List Char) (s : List Char) : List (List Char) :=
  match sep with
  | [] => [s]
  | s0 :: stl => splitSubF (s.length + 1) s0 stl s

/-- JavaScript `s.split(ch)` for a single-character separator. -/
def splitOnChar (ch : Char) : List Char → List (List Char)
  | [] => [[]]
  | c :: rest =>
    if c = ch then [] :: splitOnChar ch rest
    else
      match splitOnChar ch rest with
      | [] => [[c]]
      | seg :: segs => (c :: seg) :: segs

/-- The separator token `__$key$__` used by `transformLogs`. -/
def sepToken : List Char := "__$key$__".toList

/-- One `{key, value}` field of a transformed log.  `value` is an `Option`
because `t[1]` is `undefined` in JavaScript when the segment contains
no `=`. -/
structure LogField where
  key : List Char
  value : Option (List Char)
  deriving DecidableEq, Repr

/-- Field extraction of `transformLogs` for one annotation value: every
regex match is replaced by the separator token followed by the captured key
and `=`, the result is split on the separator token, the first segment is
discarded, and each remaining segment is split on `=` to give
`{key: t[0], value: t[1]}`. -/
def parseFields (value : List Char) : List LogField :=
  let ms := execAll value
  let fieldsValue :=
    ms.foldl (fun acc mk => jsReplaceFirst mk.1 (sepToken ++ mk.2 ++ ['=']) acc) value
  ((splitSub sepToken fieldsValue).drop 1).map fun prop =>
    let t := splitOnChar '=' prop
    { key := t.getD 0 [], value := t[1]? }

/-- The `localEndpoint` of a source span (`serviceName` is always read by the
adapter; `ipv4` may be absent). -/
structure LocalEndpoint where
  serviceName : String
  ipv4 : Option String
  deriving DecidableEq, Repr

/-- One timestamped free-text log entry of a source span (the `annotations`
array elements). -/
structure Annot where
  timestamp : Int
  value : List Char
  deriving DecidableEq, Repr

/-- A Zipkin-style source span as consumed by `transformTraceData`. -/
structure SourceSpan where
  id : String
  traceId : String
  parentId : Option String
  name : String
  kind : Option String
  timestamp : Int
  duration : Int
  localEndpoint : LocalEndpoint
  tags : Option (List (String × String))
  annots : Option (List Annot)
  deriving DecidableEq, Repr

/-- A reference of a target span. -/
structure Reference where
  refType : String
  traceID : String
  spanID : String
  deriving DecidableEq, Repr

/-- One log of a target span. -/
structure TargetLog where
  timestamp : Int
  fields : List LogField
  deriving DecidableEq, Repr

/-- A target (Jaeger-model) span. -/
structure TargetSpan where
  spanID : String
  traceID : String
  processID : String
  operationName : String
  startTime : Int
  duration : Int
  logs : List TargetLog
  tags : List (String × String)
  references : List Reference
  deriving DecidableEq, Repr

/-- One tag of a process record (`value` is an `Option` because the `ip`
tag carries `localEndpoint.ipv4`, which may be `undefined`). -/
structure ProcessTag where
  key : String
  type : String
  value : Option String
  deriving DecidableEq, Repr

/-- A process record of the target trace. -/
structure ZProcess where
  serviceName : String
  tags : List ProcessTag
  deriving DecidableEq, Repr

/-- A target trace: `processes` is a JavaScript object keyed by service
name, embedded as an association list in insertion order. -/
structure TargetTrace where
  traceID : String
  spans : List TargetSpan
  processes : List (String × ZProcess)
  deriving DecidableEq, Repr

/-- JavaScript `obj[k] = v` on a plain object: an existing key keeps its
position and gets the new value, a fresh key is appended. -/
def objSet {β : Type} (k : String) (v : β) : List (String × β) → List (String × β)
  | [] => [(k, v)]
  | (k', v') :: rest => if k' = k then (k, v) :: rest else (k', v') :: objSet k v rest

/-- JavaScript `obj[k]` on a plain object embedded as an association list. -/
def objGet {β : Type} (k : String) : List (String × β) → Option β
  | [] => none
  | (k', v) :: rest => if k' = k then some v else objGet k rest

/-- `transformLogs` of `jaeger.js`: absent `annotations` gives an empty
list, otherwise each annotation becomes a log with its parsed fields. -/
def transformLogs (span : SourceSpan) : List TargetLog :=
  match span.annots with
  | none => []
  | some l => l.map fun a => { timestamp := a.timestamp, fields := parseFields a.value }

/-- `transformTags` of `jaeger.js`: absent `tags` gives an empty list,
otherwise the entries of the tag object in iteration order. -/
def transformTags (span : SourceSpan) : List (String × String) :=
  match span.tags with
  | none => []
  | some l => l

/-- `transformReferences` of `jaeger.js`: a falsy `parentId` (absent or the
empty string) gives no reference; otherwise one reference whose type is
`FOLLOWS_FROM` exactly when `span.kind === 'CONSUMER'`. -/
def transformReferences (span : SourceSpan) : List Reference :=
  match span.parentId with
  | none => []
  | some p =>
    if p = "" then []
    else [{ refType := if span.kind = some "CONSUMER" then "FOLLOWS_FROM" else "CHILD_OF",
            traceID := span.traceId, spanID := p }]

/-- The per-span mapping inside `transformTraceData`. -/
def transformSpan (span : SourceSpan) : TargetSpan :=
  { spanID := span.id
    traceID := span.traceId
    processID := span.localEndpoint.serviceName
    operationName := span.name
    startTime := span.timestamp
    duration := span.duration
    logs := transformLogs span
    tags := transformTags span
    references := transformReferences span }

/-- The process record written by `transformTraceData` for one span. -/
def mkProcess (le : LocalEndpoint) : ZProcess :=
  { serviceName := le.serviceName
    tags := [{ key := "hostname", type := "string", value := some le.serviceName },
             { key := "ip", type := "string", value := le.ipv4 }] }

/-- One step of the `trace.forEach` loop building `traceData.processes`. -/
def procStep (acc : List (String × ZProcess)) (span : SourceSpan) : List (String × ZProcess) :=
  objSet span.localEndpoint.serviceName (mkProcess span.localEndpoint) acc

/-- The `traceData.processes` object of `transformTraceData`. -/
def buildProcesses (trace : List SourceSpan) : List (String × ZProcess) :=
  trace.foldl procStep []

/-- `transformTraceData` of `jaeger.js`.  On an empty input the JavaScript
code throws (it dereferences `trace[0].traceId`), embedded as `none`. -/
def transformTraceData : List SourceSpan → Option TargetTrace
  | [] => none
  | s :: rest =>
    some { traceID := s.traceId
           spans := (s :: rest).map transformSpan
           processes := buildProcesses (s :: rest) }

/-- The last span of a trace whose `localEndpoint.serviceName` is `k`. -/
def lastWith (k : String) : List SourceSpan → Option SourceSpan
  | [] => none
  | s :: rest =>
    match lastWith k rest with
    | some t => some t
    | none => if s.localEndpoint.serviceName = k then some s else none

/-- ASCII letter, the character class `[a-z]` under the `i` flag. -/
def isAsciiLetter (c : Char) : Bool :=
  ('a' ≤ c && c ≤ 'z') || ('A' ≤ c && c ≤ 'Z')

/-- Leftmost match of `/([0-9]+)([a-z]+)/gmi`: the first maximal digit run
that is immediately followed by at least one ASCII letter, together with the
letter run after it. -/
def firstNumUnit : List Char → Option (List Char × List Char)
  | [] => none
  | c :: rest =>
    if c.isDigit then
      let ds := (c :: rest).takeWhile Char.isDigit
      let after := (c :: rest).dropWhile Char.isDigit
      let us := after.takeWhile isAsciiLetter
      if us = [] then firstNumUnit rest else some (ds, us)
    else firstNumUnit rest

/-- Numeric value of a digit run, the mathematical integer that
`parseInt(value, 10)` denotes.  The embedding works with exact integers:
the IEEE-754 double rounding that `parseInt` applies in JavaScript (loss of
precision past 2^53 and saturation to Infinity from 309 digits on) is not
modelled here. -/
def digitsToNat (ds : List Char) : Nat :=
  ds.foldl (fun n c => n * 10 + (c.toNat - '0'.toNat)) 0

/-- Unit-alias table of the moment duration library (an external dependency
of `jaeger.js`): lowercase singular and plural names plus the shorthand
letters, with `M` (month), `Q` (quarter) and `D` (date) case-sensitive. -/
def momentAliases (s : String) : Option String :=
  if s = "y" ∨ s = "year" ∨ s = "years" then some "year" else
  if s = "Q" ∨ s = "quarter" ∨ s = "quarters" then some "quarter" else
  if s = "M" ∨ s = "month" ∨ s = "months" then some "month" else
  if s = "w" ∨ s = "week" ∨ s = "weeks" then some "week" else
  if s = "d" ∨ s = "day" ∨ s = "days" then some "day" else
  if s = "D" ∨ s = "date" ∨ s = "dates" then some "date" else
  if s = "h" ∨ s = "hour" ∨ s = "hours" then some "hour" else
  if s = "m" ∨ s = "minute" ∨ s = "minutes" then some "minute" else
  if s = "s" ∨ s = "second" ∨ s = "seconds" then some "second" else
  if s = "ms" ∨ s = "millisecond" ∨ s = "milliseconds" then some "millisecond" else
  none

/-- Lowercasing of one ASCII letter (the unit strings reaching
`normalizeUnit` consist of ASCII letters only). -/
def lowerChar (c : Char) : Char :=
  if 'A' ≤ c && c ≤ 'Z' then Char.ofNat (c.toNat + 32) else c

/-- moment's `normalizeUnits`: exact lookup first, then lowercase lookup. -/
def normalizeUnit (u : List Char) : Option String :=
  match momentAliases (String.mk u) with
  | some x => some x
  | none => momentAliases (String.mk (u.map lowerChar))

/-- Milliseconds of `m` months in moment's `asMilliseconds` accounting:
the month count is converted to `Math.round(m * 146097 / 4800)` days
(146097 days being exactly 400 Gregorian years) of 86400000 ms each. -/
def monthsMs (m : Nat) : Nat :=
  (m * 146097 * 2 + 4800) / 9600 * 86400000

/-- `moment.duration(value, unit).asMilliseconds()` for a nonnegative
integer `value`: known units scale by their millisecond factor, a unit
outside the duration vocabulary yields a zero duration. -/
def momentAsMilliseconds (value : Nat) (unit : List Char) : Nat :=
  match normalizeUnit unit with
  | some "millisecond" => value
  | some "second" => value * 1000
  | some "minute" => value * 60000
  | some "hour" => value * 3600000
  | some "day" => value * 86400000
  | some "week" => value * 604800000
  | some "month" => monthsMs value
  | some "quarter" => monthsMs (3 * value)
  | some "year" => monthsMs (12 * value)
  | _ => 0

/-- `durationToMs` of `jaeger.js`: `null` for a falsy token, `null` when the
regex finds no number-unit match, otherwise the millisecond value (scaled by
1000 when `nanos` is set), with nonpositive results mapped to `null`. -/
def durationToMs (duration : Option String) (nanos : Bool) : Option Rat :=
  match duration with
  | none => none
  | some s =>
    if s = "" then none
    else
      match firstNumUnit s.toList with
      | none => none
      | some (ds, us) =>
        let msN : Nat := momentAsMilliseconds (digitsToNat ds) us
        let scaled : Nat := if nanos then msN * 1000 else msN
        if 0 < (scaled : Rat) then some (scaled : Rat) else none

/-- The target-side search parameters consumed by `searchTraces`. -/
structure TargetQuery where
  operation : String
  minDuration : Option String
  maxDuration : Option String
  endTime : Rat
  limit : Nat
  tags : String
  lookback : Option String
  service : String
  deriving DecidableEq, Repr

/-- The Zipkin-side query built by `searchTraces`.  `lookback` is an
`Option Option` since the field itself is only conditionally added, and
`durationToMs` may still return `null` for it. -/
structure ZipkinQuery where
  spanName : String
  minDuration : Option Rat
  maxDuration : Option Rat
  endTs : Rat
  limit : Nat
  annotQuery : String
  lookback : Option (Option Rat)
  serviceName : Option String
  deriving DecidableEq, Repr

/-- The query translation performed at the top of `searchTraces`. -/
def translateQuery (q : TargetQuery) : ZipkinQuery :=
  let base : ZipkinQuery :=
    { spanName := q.operation
      minDuration := durationToMs q.minDuration true
      maxDuration := durationToMs q.maxDuration true
      endTs := q.endTime / 1000
      limit := q.limit
      annotQuery := q.tags
      lookback := none
      serviceName := none }
  let withLb :=
    match q.lookback with
    | none => base
    | some l => if l = "" then base else { base with lookback := some (durationToMs (some l) false) }
  if q.service = "all" then withLb else { withLb with serviceName := some q.service }


/-- A concrete well-formed source span used by the evaluation theorems. -/
def exSpanBase : SourceSpan :=
  { id := "s1", traceId := "T1", parentId := none, name := "op", kind := none,
    timestamp := 10, duration := 5,
    localEndpoint := { serviceName := "A", ipv4 := some "10.0.0.1" },
    tags := none, annots := none }

/-- A span whose `parentId` is present but is the empty string. -/
def exSpanEmptyParent : SourceSpan := { exSpanBase with id := "s2", parentId := some "" }

/-- A CONSUMER-kind span with a non-empty `parentId`. -/
def exSpanConsumer : SourceSpan :=
  { exSpanBase with id := "s3", parentId := some "s1", kind := some "CONSUMER" }

/-- First span of service A in the concrete trace. -/
def exSpanA1 : SourceSpan :=
  { exSpanBase with id := "a1", localEndpoint := { serviceName := "A", ipv4 := some "1.1.1.1" } }

/-- Second (later) span of service A in the concrete trace. -/
def exSpanA2 : SourceSpan :=
  { exSpanBase with id := "a2", localEndpoint := { serviceName := "A", ipv4 := some "2.2.2.2" } }

/-- The only span of service B in the concrete trace. -/
def exSpanB : SourceSpan :=
  { exSpanBase with id := "b1", localEndpoint := { serviceName := "B", ipv4 := some "3.3.3.3" } }

/-- A concrete trace with a duplicated service name. -/
def exTrace : List SourceSpan := [exSpanA1, exSpanA2, exSpanB]

/-- The target trace that `transformTraceData` produces on `exTrace`. -/
def exTd : TargetTrace :=
  { traceID := "T1", spans := exTrace.map transformSpan, processes := buildProcesses exTrace }

/-- A concrete search query with a non-`all` service. -/
def exQuery : TargetQuery :=
  { operation := "op", minDuration := none, maxDuration := none, endTime := 1000,
    limit := 20, tags := "", lookback := none, service := "svcA" }

/-- Pieces produced by `splitOnChar ch` never contain the separator `ch`. -/
theorem splitOnChar_sep_not_mem (ch : Char) (l : List Char) :
    ∀ p ∈ splitOnChar ch l, ch ∉ p := by
  induction l with
  | nil =>
    intro p hp
    simp only [splitOnChar, List.mem_singleton] at hp
    subst hp; simp
  | cons c rest ih =>
    intro p hp
    by_cases h : c = ch
    · simp only [splitOnChar, if_pos h, List.mem_cons] at hp
      rcases hp with hp | hp
      · subst hp; simp
      · exact ih p hp
    · simp only [splitOnChar, if_neg h] at hp
      cases hsc : splitOnChar ch rest with
      | nil =>
        rw [hsc] at hp
        simp only [List.mem_singleton] at hp
        subst hp
        simp only [List.mem_singleton]
        exact fun hh => h hh.symm
      | cons seg segs =>
        rw [hsc] at hp
        simp only [List.mem_cons] at hp
        rcases hp with hp | hp
        · subst hp
          intro hmem
          rcases List.mem_cons.mp hmem with h1 | h1
          · exact h h1.symm
          · exact ih seg (by rw [hsc]; exact List.mem_cons_self _ _) h1
        · exact ih p (by rw [hsc]; exact List.mem_cons_of_mem _ hp)

/-- C3 (counterexample): on the annotation value `a=1 b=2` the parser yields
the field values `1` and `2`; the first field's value does not carry the
claimed trailing space, because the whitespace that precedes `b=` is part of
the regex match and is consumed by the replacement. -/
theorem parseFields_pair_cex :
    parseFields ("a=1 b=2".toList) =
      [⟨"a".toList, some ("1".toList)⟩, ⟨"b".toList, some ("2".toList)⟩] ∧
    parseFields ("a=1 b=2".toList) ≠
      [⟨"a".toList, some ("1 ".toList)⟩, ⟨"b".toList, some ("2".toList)⟩] := by decide

/-- C3 (amended): parsing `a=1 b=2` yields exactly
`[{key: a, value: 1}, {key: b, value: 2}]`, with no trailing space in the
first value. -/
theorem parseFields_pair_exact :
    parseFields ("a=1 b=2".toList) =
      [⟨"a".toList, some ("1".toList)⟩, ⟨"b".toList, some ("2".toList)⟩] := by decide

/-- C4 (counterexample): on the annotation value `a=b=c` the single field
has value `b`, not the whole remainder `b=c` after the first `=` of the
segment: `t[1]` of the JavaScript `split('=')` stops at the second `=`. -/
theorem parseFields_dropSecondEq_cex :
    parseFields ("a=b=c".toList) = [⟨"a".toList, some ("b".toList)⟩] ∧
    ("b".toList : List Char) ≠ "b=c".toList := by decide

/-- C4 (amended): a field's value is the part of its segment strictly
between the first `=` and the next `=` (if any); in particular a produced
field value never contains the character `=`. -/
theorem parseFields_value_no_eq (value : List Char) (f : LogField)
    (hf : f ∈ parseFields value) (v : List Char) (hv : f.value = some v) : '=' ∉ v := by
  unfold parseFields at hf
  simp only [List.mem_map] at hf
  obtain ⟨prop, _, rfl⟩ := hf
  simp only at hv
  exact splitOnChar_sep_not_mem '=' prop v (List.getElem?_mem hv)

/-- Witness for the amended C4 at a concrete field of `a=b=c`. -/
theorem parseFields_value_no_eq_witness :
    (⟨"a".toList, some ("b".toList)⟩ : LogField) ∈ parseFields ("a=b=c".toList) ∧
    '=' ∉ "b".toList :=
  ⟨by decide,
   parseFields_value_no_eq ("a=b=c".toList) ⟨"a".toList, some ("b".toList)⟩ (by decide)
     ("b".toList) rfl⟩

/-- C5 (code-bug evaluation): on the annotation value `__$key$__` the
key-marker regex has zero matches, yet the parser emits one field, because
the input collides with the improbable-collision separator token that the
implementation splits on. -/
theorem parseFields_collision_eval :
    execAll ("__$key$__".toList) = [] ∧
    parseFields ("__$key$__".toList) = [⟨[], none⟩] ∧
    (parseFields ("__$key$__".toList)).length ≠ (execAll ("__$key$__".toList)).length := by
  decide

/-- C2 (counterexample): a span whose `parentId` is present but equal to the
empty string gets an empty references list, not a single reference, because
the code tests JavaScript truthiness of `span.parentId`. -/
theorem transformSpan_presentEmptyParent_cex :
    exSpanEmptyParent.parentId = some "" ∧
    (transformSpan exSpanEmptyParent).references = [] := by decide

/-- C2 (amended): a span with `parentId` absent has no references; a span
with a present, non-empty `parentId` has exactly one reference whose type is
`FOLLOWS_FROM` when `kind === 'CONSUMER'` and `CHILD_OF` otherwise, whose
`traceID` is the span's `traceId` and whose `spanID` is the `parentId`. -/
theorem transformSpan_references_spec (span : SourceSpan) :
    (span.parentId = none → (transformSpan span).references = []) ∧
    (∀ p, span.parentId = some p → p ≠ "" →
      (transformSpan span).references =
        [{ refType := if span.kind = some "CONSUMER" then "FOLLOWS_FROM" else "CHILD_OF",
           traceID := span.traceId, spanID := p }]) := by
  constructor
  · intro h
    simp [transformSpan, transformReferences, h]
  · intro p hp hne
    simp [transformSpan, transformReferences, hp, hne]

/-- Witness for the amended C2 at a concrete CONSUMER span. -/
theorem transformSpan_references_spec_witness :
    (transformSpan exSpanConsumer).references =
      [{ refType := "FOLLOWS_FROM", traceID := "T1", spanID := "s1" }] :=
  (transformSpan_references_spec exSpanConsumer).2 "s1" rfl (by decide)

/-- C10: a present-but-empty `parentId` yields no reference, exactly as an
absent one; the references list is non-empty precisely when `parentId` is
present and non-empty. -/
theorem transformSpan_falsyParent (span : SourceSpan) :
    (span.parentId = some "" → (transformSpan span).references = []) ∧
    ((transformSpan span).references ≠ [] ↔ ∃ p, span.parentId = some p ∧ p ≠ "") := by
  constructor
  · intro h
    simp [transformSpan, transformReferences, h]
  · cases hp : span.parentId with
    | none => simp [transformSpan, transformReferences, hp]
    | some p =>
      by_cases hne : p = "" <;> simp [transformSpan, transformReferences, hp, hne]

/-- Witness for C10 at a concrete empty-string parent. -/
theorem transformSpan_falsyParent_witness :
    (transformSpan exSpanEmptyParent).references = [] :=
  (transformSpan_falsyParent exSpanEmptyParent).1 rfl

/-- C9: the translated query carries a `serviceName` exactly when the target
query's service differs from `all`, and then its value is that service. -/
theorem translateQuery_serviceName_spec (q : TargetQuery) :
    ((translateQuery q).serviceName = none ↔ q.service = "all") ∧
    (∀ s, (translateQuery q).serviceName = some s → s = q.service) := by
  unfold translateQuery
  by_cases h : q.service = "all" <;>
    cases hl : q.lookback with
    | none => simp [h]
    | some l => by_cases hl2 : l = "" <;> simp [h, hl2]

/-- Witness for C9 at a concrete query with service `svcA`. -/
theorem translateQuery_serviceName_spec_witness :
    (translateQuery exQuery).serviceName = some "svcA" ∧ "svcA" = exQuery.service :=
  ⟨by decide, (translateQuery_serviceName_spec exQuery).2 "svcA" (by decide)⟩

/-- Evaluation of `durationToMs` in plain mode once the regex has matched. -/
theorem durationToMs_eval_false (s : String) (hs : ¬s = "") (ds us : List Char)
    (hm : firstNumUnit s.toList = some (ds, us)) :
    durationToMs (some s) false =
      if 0 < momentAsMilliseconds (digitsToNat ds) us then
        some ((momentAsMilliseconds (digitsToNat ds) us : Nat) : Rat)
      else none := by
  simp only [durationToMs, if_neg hs, if_false, Bool.false_eq_true, Nat.cast_pos]
  rw [hm]

/-- Evaluation of `durationToMs` in nano mode once the regex has matched. -/
theorem durationToMs_eval_true (s : String) (hs : ¬s = "") (ds us : List Char)
    (hm : firstNumUnit s.toList = some (ds, us)) :
    durationToMs (some s) true =
      if 0 < momentAsMilliseconds (digitsToNat ds) us then
        some (((momentAsMilliseconds (digitsToNat ds) us * 1000 : Nat)) : Rat)
      else none := by
  have hiff : 0 < momentAsMilliseconds (digitsToNat ds) us * 1000 ↔
      0 < momentAsMilliseconds (digitsToNat ds) us := by omega
  simp only [durationToMs, if_neg hs, if_true]
  rw [hm]
  simp only [Nat.cast_pos, hiff]

/-- C6: `durationToMs` never throws (it is a total function here) and
returns `null` in each degenerate case: a falsy token (absent or empty
string), a token without a digits-then-letters match, and a computed
millisecond value that is not strictly positive. -/
theorem durationToMs_null_cases (token : Option String) (nanos : Bool) :
    (token = none → durationToMs token nanos = none) ∧
    (token = some "" → durationToMs token nanos = none) ∧
    (∀ s, token = some s → firstNumUnit s.toList = none →
      durationToMs token nanos = none) ∧
    (∀ s ds us, token = some s → firstNumUnit s.toList = some (ds, us) →
      momentAsMilliseconds (digitsToNat ds) us = 0 →
      durationToMs token nanos = none) := by
  refine ⟨?_, ?_, ?_, ?_⟩
  · rintro rfl; rfl
  · rintro rfl; simp [durationToMs]
  · rintro s rfl hm
    by_cases hs : s = ""
    · simp [durationToMs, hs]
    · have hm' : firstNumUnit s.data = none := hm
      simp [durationToMs, hs, hm']
  · rintro s ds us rfl hm h0
    by_cases hs : s = ""
    · simp [durationToMs, hs]
    · cases nanos
      · rw [durationToMs_eval_false s hs ds us hm, h0]
        simp
      · rw [durationToMs_eval_true s hs ds us hm, h0]
        simp

/-- Witness for C6 at the token `0ms`, whose value is zero. -/
theorem durationToMs_null_cases_witness :
    durationToMs (some "0ms") false = none :=
  (durationToMs_null_cases (some "0ms") false).2.2.2 "0ms" ['0'] ['m', 's'] rfl
    (by decide) (by decide)

/-- C8: nano mode scales the plain-mode result by exactly 1000, and the two
modes return `null` on exactly the same tokens. -/
theorem durationToMs_nano_relation (token : Option String) :
    (durationToMs token true = none ↔ durationToMs token false = none) ∧
    (∀ q : Rat, durationToMs token false = some q →
      durationToMs token true = some (1000 * q)) := by
  cases token with
  | none => exact ⟨Iff.rfl, by rintro q ⟨⟩⟩
  | some s =>
    by_cases hs : s = ""
    · simp [durationToMs, hs]
    · cases hm : firstNumUnit s.toList with
      | none =>
        have hm' : firstNumUnit s.data = none := hm
        simp [durationToMs, hs, hm']
      | some du =>
        obtain ⟨ds, us⟩ := du
        rw [durationToMs_eval_false s hs ds us hm, durationToMs_eval_true s hs ds us hm]
        by_cases hp : 0 < momentAsMilliseconds (digitsToNat ds) us
        · rw [if_pos hp, if_pos hp]
          refine ⟨by simp, ?_⟩
          intro q hq
          obtain rfl : ((momentAsMilliseconds (digitsToNat ds) us : Nat) : Rat) = q :=
            Option.some_injective _ hq
          congr 1
          push_cast
          ring
        · rw [if_neg hp, if_neg hp]
          exact ⟨Iff.rfl, by rintro q ⟨⟩⟩

/-- Witness for C8 at the token `2s`: 2000 ms plain, 2000000 in nano mode. -/
theorem durationToMs_nano_relation_witness :
    durationToMs (some "2s") false = some 2000 ∧
    durationToMs (some "2s") true = some (1000 * 2000) :=
  ⟨by decide, (durationToMs_nano_relation (some "2s")).2 2000 (by decide)⟩

/-- Lookup after a JavaScript-object assignment: the assigned key reads the
new value, every other key is unchanged. -/
theorem objGet_objSet {β : Type} (k q : String) (v : β) (l : List (String × β)) :
    objGet q (objSet k v l) = if k = q then some v else objGet q l := by
  induction l with
  | nil =>
    by_cases h : k = q <;> simp [objSet, objGet, h]
  | cons p rest ih =>
    obtain ⟨k', v'⟩ := p
    by_cases h1 : k' = k
    · subst h1
      by_cases h2 : k' = q <;> simp [objSet, objGet, h2]
    · by_cases h2 : k' = q
      · subst h2
        have hkq : ¬k = k' := fun hh => h1 hh.symm
        simp [objSet, objGet, h1, hkq]
      · simp [objSet, objGet, h1, h2, ih]

/-- Key membership after a JavaScript-object assignment. -/
theorem mem_keys_objSet {β : Type} (k q : String) (v : β) (l : List (String × β)) :
    q ∈ (objSet k v l).map Prod.fst ↔ q = k ∨ q ∈ l.map Prod.fst := by
  induction l with
  | nil => simp [objSet]
  | cons p rest ih =>
    obtain ⟨k', v'⟩ := p
    by_cases h1 : k' = k
    · subst h1
      simp [objSet]
    · simp [objSet, h1, ih]
      tauto

/-- A JavaScript-object assignment preserves distinctness of the keys. -/
theorem nodup_keys_objSet {β : Type} (k : String) (v : β) (l : List (String × β))
    (h : (l.map Prod.fst).Nodup) : ((objSet k v l).map Prod.fst).Nodup := by
  induction l with
  | nil => simp [objSet]
  | cons p rest ih =>
    obtain ⟨k', v'⟩ := p
    simp only [List.map_cons, List.nodup_cons] at h
    by_cases h1 : k' = k
    · subst h1
      simpa [objSet] using h
    · simp only [objSet, if_neg h1, List.map_cons, List.nodup_cons]
      refine ⟨?_, ih h.2⟩
      rw [mem_keys_objSet]
      push_neg
      exact ⟨h1, h.1⟩

/-- The span selected by `lastWith` carries the service name looked up. -/
theorem lastWith_serviceName (k : String) (trace : List SourceSpan) (s : SourceSpan)
    (h : lastWith k trace = some s) : s.localEndpoint.serviceName = k := by
  induction trace with
  | nil => exact absurd h (by simp [lastWith])
  | cons t rest ih =>
    simp only [lastWith] at h
    cases hrest : lastWith k rest with
    | some u =>
      rw [hrest] at h
      exact ih (hrest.trans (by injection h with h'; rw [h']))
    | none =>
      rw [hrest] at h
      by_cases ht : t.localEndpoint.serviceName = k
      · rw [if_pos ht] at h
        injection h with h'
        rw [← h']
        exact ht
      · rw [if_neg ht] at h
        exact absurd h (by simp)

/-- Lookup in the processes object built by the `forEach` loop: the last
span with the looked-up service name wins, and keys never written read from
the starting accumulator. -/
theorem objGet_foldl_procStep (trace : List SourceSpan) :
    ∀ (acc : List (String × ZProcess)) (k : String),
      objGet k (trace.foldl procStep acc) =
        match lastWith k trace with
        | some s => some (mkProcess s.localEndpoint)
        | none => objGet k acc := by
  induction trace with
  | nil => intro acc k; simp [lastWith]
  | cons s rest ih =>
    intro acc k
    simp only [List.foldl_cons, lastWith]
    rw [ih]
    cases hrest : lastWith k rest with
    | some t => simp
    | none =>
      simp only [procStep]
      rw [objGet_objSet]
      by_cases hk : s.localEndpoint.serviceName = k
      · simp [hk]
      · simp [hk]

/-- Key membership in the processes object built by the `forEach` loop. -/
theorem mem_keys_foldl_procStep (trace : List SourceSpan) :
    ∀ (acc : List (String × ZProcess)) (k : String),
      k ∈ (trace.foldl procStep acc).map Prod.fst ↔
        k ∈ acc.map Prod.fst ∨ k ∈ trace.map fun s => s.localEndpoint.serviceName := by
  induction trace with
  | nil => intro acc k; simp
  | cons s rest ih =>
    intro acc k
    simp only [List.foldl_cons, List.map_cons, List.mem_cons]
    rw [ih, procStep, mem_keys_objSet]
    tauto

/-- The `forEach` loop preserves distinctness of the process keys. -/
theorem nodup_keys_foldl_procStep (trace : List SourceSpan) :
    ∀ acc : List (String × ZProcess),
      (acc.map Prod.fst).Nodup → ((trace.foldl procStep acc).map Prod.fst).Nodup := by
  induction trace with
  | nil => intro acc h; simpa using h
  | cons s rest ih =>
    intro acc h
    simp only [List.foldl_cons]
    exact ih _ (nodup_keys_objSet _ _ _ h)

/-- C1: for a non-empty trace, the `processes` object of
`transformTraceData` has one entry per distinct `localEndpoint.serviceName`
of the input spans (distinct keys, and exactly the service names that
occur), and the entry of each name is built from the last span in input
order with that name, so its `ip` tag value is that later span's
`localEndpoint.ipv4`. -/
theorem transformTraceData_processes_lastWins (trace : List SourceSpan) (td : TargetTrace)
    (htd : transformTraceData trace = some td) :
    (td.processes.map Prod.fst).Nodup ∧
    (∀ k, k ∈ td.processes.map Prod.fst ↔
      k ∈ trace.map fun s => s.localEndpoint.serviceName) ∧
    (∀ k s, lastWith k trace = some s →
      objGet k td.processes = some (mkProcess s.localEndpoint) ∧
      (mkProcess s.localEndpoint).tags =
        [{ key := "hostname", type := "string", value := some k },
         { key := "ip", type := "string", value := s.localEndpoint.ipv4 }]) := by
  obtain ⟨s0, rest, rfl⟩ : ∃ s0 rest, trace = s0 :: rest := by
    cases trace with
    | nil => exact absurd htd (by simp [transformTraceData])
    | cons a b => exact ⟨a, b, rfl⟩
  have hproc : td.processes = buildProcesses (s0 :: rest) := by
    simp only [transformTraceData, Option.some.injEq] at htd
    rw [← htd]
  rw [hproc]
  refine ⟨?_, ?_, ?_⟩
  · exact nodup_keys_foldl_procStep _ _ (by simp)
  · intro k
    rw [buildProcesses, mem_keys_foldl_procStep]
    simp
  · intro k s hlast
    constructor
    · rw [buildProcesses, objGet_foldl_procStep, hlast]
    · rw [mkProcess, lastWith_serviceName k _ s hlast]

/-- Witness for C1: on the concrete trace with two spans of service `A`,
the `A` entry carries the second span's `ipv4`. -/
theorem transformTraceData_processes_lastWins_witness :
    transformTraceData exTrace = some exTd ∧
    objGet "A" exTd.processes =
      some (mkProcess { serviceName := "A", ipv4 := some "2.2.2.2" }) ∧
    objGet "B" exTd.processes =
      some (mkProcess { serviceName := "B", ipv4 := some "3.3.3.3" }) :=
  ⟨rfl,
   ((transformTraceData_processes_lastWins exTrace exTd rfl).2.2 "A" exSpanA2
     (by decide)).1,
   ((transformTraceData_processes_lastWins exTrace exTd rfl).2.2 "B" exSpanB
     (by decide)).1⟩
